import Mathlib

/-!
# Shallow embedding of the `lux01/synacor` virtual machine and debugger

This file embeds, in Lean 4, the parts of the Rust sources that the
verified statements below are about:

* `src/syn_int.rs` — the typed operand `SynInt` (literal or register);
* `src/cpu/instruction.rs` — the instruction set, the operation decoder
  `Operation::next`, and `Instruction::size`;
* `src/cpu/data.rs` — registers, RAM, stack, operand read/write, binary loader;
* `src/cpu/status.rs` — the CPU status enum;
* `src/cpu/mod.rs` — `SynCpu`, its `step` function and its `run` loop;
* `src/cpu/injection.rs` — load-time RAM patches;
* `src/debugger/debugger.rs`, `src/debugger/command.rs` — the debugger state,
  its `restart` command and the breakpoint `set`/`unset` commands.

Machine words are modelled as `Nat` (all values written by the program stay
below 2^16; where the Rust code reduces modulo 32768 or masks bytes, the
model does the same arithmetic explicitly).  Rust panics (out-of-bounds
indexing, division by zero, explicit `panic!`) are modelled by `Option`:
a function returns `none` exactly where the Rust aborts.  The blocking
stdin read inside the `In` instruction, which is interactive I/O, is also
mapped to `none`; no statement below touches that path.  Bytes printed by
`Out` are collected in an explicit `output` field.
-/

namespace Synacor

/-- The typed operand of `src/syn_int.rs`: a literal word or a register index.
The Rust `From<u16>` conversion puts no upper bound on the register index. -/
inductive SynInt where
  | Literal (x : Nat)
  | Register (r : Nat)
deriving DecidableEq, Repr

/-- `impl From<u16> for SynInt`: words below 32768 are literals, all larger
words become `Register (w - 32768)` (no bound check in the source). -/
def SynInt.ofNat (w : Nat) : SynInt :=
  if w < 32768 then .Literal w else .Register (w - 32768)

/-- The CPU status enum of `src/cpu/status.rs`. -/
inductive Status where
  | Ok
  | PopOnEmptyStack
  | InstructionParseError
  | UnimplementedInstruction
  | StdoutWriteError
  | StdinReadError
deriving DecidableEq, Repr

/-- The 22 instructions of `src/cpu/instruction.rs`, plus the hidden
`_Unknown` variant produced for unrecognised opcodes. -/
inductive Instruction where
  | Halt
  | Set (dst a : SynInt)
  | Push (src : SynInt)
  | Pop (dst : SynInt)
  | Eq (dst a b : SynInt)
  | Gt (dst a b : SynInt)
  | Jmp (dst : SynInt)
  | Jt (src dst : SynInt)
  | Jf (src dst : SynInt)
  | Add (dst a b : SynInt)
  | Mult (dst a b : SynInt)
  | Mod (dst a b : SynInt)
  | And (dst a b : SynInt)
  | Or (dst a b : SynInt)
  | Not (dst a : SynInt)
  | ReadMem (dst src : SynInt)
  | WriteMem (dst src : SynInt)
  | Call (dst : SynInt)
  | Ret
  | Out (val : SynInt)
  | In (dst : SynInt)
  | Noop
  | Unknown
deriving DecidableEq, Repr

/-- An operation is an instruction tagged as regular or as a breakpoint
(`Operation` in `src/cpu/instruction.rs`). -/
inductive Operation where
  | Regular (i : Instruction)
  | Breakpoint (i : Instruction)
deriving DecidableEq, Repr

/-- `Operation::instr`. -/
def Operation.instr : Operation → Instruction
  | .Regular i => i
  | .Breakpoint i => i

/-- Modelled from the spec: `Operation::is_breakpoint`, which is called by
`SynCpu::run` but whose definition is not among the provided sources.  The
spec's glossary defines an operation to be a breakpoint exactly when it
carries the breakpoint tag, so the predicate holds on the `Breakpoint`
constructor and fails on `Regular`. -/
def Operation.isBreakpoint : Operation → Bool
  | .Regular _ => false
  | .Breakpoint _ => true

/-- A read at offset `k` of the Rust slice `&data[pc..]` over the
32768-word RAM vector.  The `Index<RangeFrom<u16>>` impl in
`src/cpu/data.rs` slices the RAM vector with no modular wrap, so an
access at `pc + k ≥ 32768` is out of bounds and panics (`none`). -/
def sliceRead (ram : Nat → Nat) (pc k : Nat) : Option Nat :=
  if pc + k < 32768 then some (ram (pc + k)) else none

/-- The instruction arms of `Operation::next` in `src/cpu/instruction.rs`:
given `op`, the low byte `0x00ff & ram[0]`, read the operand words the
matched arm evaluates (slice offsets 1..3 of `&data[pc..]`) and build the
instruction.  The source decodes opcode 14 as
`Not(ram[1].into(), ram[1].into())`, reading the word at offset 1 twice;
unlisted opcodes produce the unknown instruction. -/
def decodeArm (ram : Nat → Nat) (pc : Nat) (op : Nat) : Option Instruction :=
    if op = 0 then pure Instruction.Halt
    else if op = 1 then do
      let x ← sliceRead ram pc 1
      let y ← sliceRead ram pc 2
      pure (Instruction.Set (SynInt.ofNat x) (SynInt.ofNat y))
    else if op = 2 then do
      let x ← sliceRead ram pc 1
      pure (Instruction.Push (SynInt.ofNat x))
    else if op = 3 then do
      let x ← sliceRead ram pc 1
      pure (Instruction.Pop (SynInt.ofNat x))
    else if op = 4 then do
      let x ← sliceRead ram pc 1
      let y ← sliceRead ram pc 2
      let z ← sliceRead ram pc 3
      pure (Instruction.Eq (SynInt.ofNat x) (SynInt.ofNat y) (SynInt.ofNat z))
    else if op = 5 then do
      let x ← sliceRead ram pc 1
      let y ← sliceRead ram pc 2
      let z ← sliceRead ram pc 3
      pure (Instruction.Gt (SynInt.ofNat x) (SynInt.ofNat y) (SynInt.ofNat z))
    else if op = 6 then do
      let x ← sliceRead ram pc 1
      pure (Instruction.Jmp (SynInt.ofNat x))
    else if op = 7 then do
      let x ← sliceRead ram pc 1
      let y ← sliceRead ram pc 2
      pure (Instruction.Jt (SynInt.ofNat x) (SynInt.ofNat y))
    else if op = 8 then do
      let x ← sliceRead ram pc 1
      let y ← sliceRead ram pc 2
      pure (Instruction.Jf (SynInt.ofNat x) (SynInt.ofNat y))
    else if op = 9 then do
      let x ← sliceRead ram pc 1
      let y ← sliceRead ram pc 2
      let z ← sliceRead ram pc 3
      pure (Instruction.Add (SynInt.ofNat x) (SynInt.ofNat y) (SynInt.ofNat z))
    else if op = 10 then do
      let x ← sliceRead ram pc 1
      let y ← sliceRead ram pc 2
      let z ← sliceRead ram pc 3
      pure (Instruction.Mult (SynInt.ofNat x) (SynInt.ofNat y) (SynInt.ofNat z))
    else if op = 11 then do
      let x ← sliceRead ram pc 1
      let y ← sliceRead ram pc 2
      let z ← sliceRead ram pc 3
      pure (Instruction.Mod (SynInt.ofNat x) (SynInt.ofNat y) (SynInt.ofNat z))
    else if op = 12 then do
      let x ← sliceRead ram pc 1
      let y ← sliceRead ram pc 2
      let z ← sliceRead ram pc 3
      pure (Instruction.And (SynInt.ofNat x) (SynInt.ofNat y) (SynInt.ofNat z))
    else if op = 13 then do
      let x ← sliceRead ram pc 1
      let y ← sliceRead ram pc 2
      let z ← sliceRead ram pc 3
      pure (Instruction.Or (SynInt.ofNat x) (SynInt.ofNat y) (SynInt.ofNat z))
    else if op = 14 then do
      let x ← sliceRead ram pc 1
      pure (Instruction.Not (SynInt.ofNat x) (SynInt.ofNat x))
    else if op = 15 then do
      let x ← sliceRead ram pc 1
      let y ← sliceRead ram pc 2
      pure (Instruction.ReadMem (SynInt.ofNat x) (SynInt.ofNat y))
    else if op = 16 then do
      let x ← sliceRead ram pc 1
      let y ← sliceRead ram pc 2
      pure (Instruction.WriteMem (SynInt.ofNat x) (SynInt.ofNat y))
    else if op = 17 then do
      let x ← sliceRead ram pc 1
      pure (Instruction.Call (SynInt.ofNat x))
    else if op = 18 then pure Instruction.Ret
    else if op = 19 then do
      let x ← sliceRead ram pc 1
      pure (Instruction.Out (SynInt.ofNat x))
    else if op = 20 then do
      let x ← sliceRead ram pc 1
      pure (Instruction.In (SynInt.ofNat x))
    else if op = 21 then pure Instruction.Noop
    else pure Instruction.Unknown

/-- `Operation::next` of `src/cpu/instruction.rs`: decode the operation at
`pc`.  The opcode is the low byte `0x00ff & ram[0]` of the word at slice
offset 0, dispatched through `decodeArm`; the operation is a breakpoint
when `(ram[0] >> 8) & 0xcc == 0xcc`. -/
def Operation.next (ram : Nat → Nat) (pc : Nat) : Option Operation := do
  let w0 ← sliceRead ram pc 0
  let i ← decodeArm ram pc (w0 % 256)
  if (w0 >>> 8) &&& 0xcc = 0xcc then
    pure (Operation.Breakpoint i)
  else
    pure (Operation.Regular i)

/-- `Instruction::size` of `src/cpu/instruction.rs`: the program-counter
increment applied after executing the instruction (0 for instructions that
assign the program counter themselves). -/
def Instruction.size : Instruction → Nat
  | .Halt | .Jmp _ | .Jt _ _ | .Jf _ _ | .Call _ | .Ret => 0
  | .Noop | .Unknown => 1
  | .Push _ | .Pop _ | .Out _ | .In _ => 2
  | .Set _ _ | .Not _ _ | .ReadMem _ _ | .WriteMem _ _ => 3
  | .Eq _ _ _ | .Gt _ _ _ | .Add _ _ _ | .Mult _ _ _ | .Mod _ _ _
  | .And _ _ _ | .Or _ _ _ => 4

/-- Point update of a `Nat`-indexed store. -/
def updateFn (f : Nat → Nat) (i v : Nat) : Nat → Nat :=
  fun j => if j = i then v else f j

/-- The data store of `src/cpu/data.rs`: eight registers, the 32768-word
RAM, and the unbounded stack.  The RAM vector is modelled as a function;
reads and writes through the `u16` index impls reduce the address modulo
32768 before indexing, which the operations below perform explicitly.
The Rust stack is a `Vec` pushed and popped at the back; here the head of
the list is the most recently pushed word. -/
structure Data where
  registers : Nat → Nat
  ram : Nat → Nat
  stack : List Nat
deriving Inhabited

/-- `Data::val`: a literal is its own value; a register operand reads the
register array, panicking (`none`) when the index is 8 or more (the Rust
`From<u16>` conversion does not bound it). -/
def Data.val (d : Data) : SynInt → Option Nat
  | .Literal x => some x
  | .Register r => if r < 8 then some (d.registers r) else none

/-- `IndexMut<SynInt> for Data`: writing through a literal operand is an
explicit `panic!` in the source (`none` here); a register write is guarded
by the array bound. -/
def Data.writeReg (d : Data) : SynInt → Nat → Option Data
  | .Literal _, _ => none
  | .Register r, v =>
    if r < 8 then some { d with registers := updateFn d.registers r v } else none

/-- `Index<u16> for Data`: RAM reads reduce the address modulo 32768. -/
def Data.readRam (d : Data) (addr : Nat) : Nat :=
  d.ram (addr % 32768)

/-- `IndexMut<u16> for Data`: RAM writes reduce the address modulo 32768. -/
def Data.writeRam (d : Data) (addr v : Nat) : Data :=
  { d with ram := updateFn d.ram (addr % 32768) v }

/-- `Data::push`. -/
def Data.push (d : Data) (v : Nat) : Data :=
  { d with stack := v :: d.stack }

/-- `Data::is_stack_empty`. -/
def Data.is_stack_empty (d : Data) : Bool :=
  d.stack.isEmpty

/-- Decode a little-endian byte stream into 16-bit words, as the loop in
`Data::from_bin` does with `read_u16::<LittleEndian>`; a trailing odd byte
makes the read fail, which `from_bin` propagates as an error. -/
def leWords : List Nat → Option (List Nat)
  | [] => some []
  | [_] => none
  | lo :: hi :: rest => (leWords rest).map (fun ws => (lo + 256 * hi) :: ws)

/-- `Data::from_bin`: zeroed registers and stack, RAM filled from address 0
with the decoded words and zero elsewhere.  A binary of more than 32768
words writes past the RAM vector and panics (`none`). -/
def Data.from_bin (binary : List Nat) : Option Data := do
  let ws ← leWords binary
  if ws.length ≤ 32768 then
    pure { registers := fun _ => 0, ram := fun a => ws.getD a 0, stack := [] }
  else
    none

/-- The CPU state of `src/cpu/mod.rs`, with an extra `output` field
collecting the words printed by `Out` (the Rust code prints them to stdout
directly). -/
structure SynCpu where
  pc : Nat
  halted : Bool
  status : Status
  data : Data
  stdin_buf : List Nat
  output : List Nat

/-- `SynCpu::new`: program counter 0, not halted, default status, the given
data, empty stdin buffer. -/
def SynCpu.new (data : Data) : SynCpu :=
  { pc := 0, halted := false, status := .Ok, data := data,
    stdin_buf := [], output := [] }

/-- `SynCpu::peek_op_at`. -/
def SynCpu.peek_op_at (s : SynCpu) (offset : Nat) : Option Operation :=
  Operation.next s.data.ram offset

/-- `SynCpu::peek_op`. -/
def SynCpu.peek_op (s : SynCpu) : Option Operation :=
  s.peek_op_at s.pc

/-- The match arms of `SynCpu::step` on a decoded instruction, followed by
the final `self.pc += next_instr.size()` that every arm falls through to.
`none` marks the places where the Rust panics: operand evaluation on an
out-of-range register, writes through a literal destination, the `%` by
zero in `Mod`, the `char::from_u32(..).unwrap()` on a surrogate in `Out`,
popping the empty `stdin_buf`; the blocking interactive stdin read in `In`
(taken when the buffer is empty) is likewise outside this pure model.
Program-counter arithmetic is on the Rust `u16`, hence the `% 65536`. -/
def SynCpu.stepInstr (s : SynCpu) (i : Instruction) : Option SynCpu := do
  let t ←
    match i with
    | .Halt => pure { s with halted := true }
    | .Set dst a => do
      let v ← s.data.val a
      let d ← s.data.writeReg dst v
      pure { s with data := d }
    | .Push src => do
      let v ← s.data.val src
      pure { s with data := s.data.push v }
    | .Pop dst =>
      if s.data.is_stack_empty then
        pure { s with status := .PopOnEmptyStack, halted := true }
      else do
        match s.data.stack with
        | [] => none
        | v :: rest => do
          let d ← { s.data with stack := rest }.writeReg dst v
          pure { s with data := d }
    | .Eq dst a b => do
      let va ← s.data.val a
      let vb ← s.data.val b
      let d ← s.data.writeReg dst (if va = vb then 1 else 0)
      pure { s with data := d }
    | .Gt dst a b => do
      let va ← s.data.val a
      let vb ← s.data.val b
      let d ← s.data.writeReg dst (if va > vb then 1 else 0)
      pure { s with data := d }
    | .Jmp dst => do
      let v ← s.data.val dst
      pure { s with pc := v }
    | .Jt src dst => do
      let vs ← s.data.val src
      if vs ≠ 0 then do
        let v ← s.data.val dst
        pure { s with pc := v }
      else
        pure { s with pc := (s.pc + 3) % 65536 }
    | .Jf src dst => do
      let vs ← s.data.val src
      if vs = 0 then do
        let v ← s.data.val dst
        pure { s with pc := v }
      else
        pure { s with pc := (s.pc + 3) % 65536 }
    | .Add dst a b => do
      let va ← s.data.val a
      let vb ← s.data.val b
      let d ← s.data.writeReg dst ((va + vb) % 32768)
      pure { s with data := d }
    | .Mult dst a b => do
      let va ← s.data.val a
      let vb ← s.data.val b
      let d ← s.data.writeReg dst ((va * vb) % 32768)
      pure { s with data := d }
    | .Mod dst a b => do
      let va ← s.data.val a
      let vb ← s.data.val b
      if vb = 0 then none
      else do
        let d ← s.data.writeReg dst (va % vb)
        pure { s with data := d }
    | .And dst a b => do
      let va ← s.data.val a
      let vb ← s.data.val b
      let d ← s.data.writeReg dst (va &&& vb)
      pure { s with data := d }
    | .Or dst a b => do
      let va ← s.data.val a
      let vb ← s.data.val b
      let d ← s.data.writeReg dst (va ||| vb)
      pure { s with data := d }
    | .Not dst a => do
      let va ← s.data.val a
      let d ← s.data.writeReg dst (32767 ^^^ va)
      pure { s with data := d }
    | .ReadMem dst src => do
      let addr ← s.data.val src
      let d ← s.data.writeReg dst (s.data.readRam addr)
      pure { s with data := d }
    | .WriteMem dst src => do
      let addr ← s.data.val dst
      let v ← s.data.val src
      pure { s with data := s.data.writeRam addr v }
    | .Call dst => do
      let d := s.data.push ((s.pc + 2) % 65536)
      let v ← d.val dst
      pure { s with data := d, pc := v }
    | .Ret =>
      if s.data.is_stack_empty then
        pure { s with halted := true }
      else
        match s.data.stack with
        | [] => none
        | v :: rest => pure { s with data := { s.data with stack := rest }, pc := v }
    | .Out val => do
      let v ← s.data.val val
      if 0xd800 ≤ v ∧ v < 0xe000 then none
      else pure { s with output := s.output ++ [v] }
    | .In dst =>
      match s.stdin_buf.getLast? with
      | none => none
      | some c => do
        let d ← s.data.writeReg dst c
        pure { s with data := d, stdin_buf := s.stdin_buf.dropLast }
    | .Noop => pure s
    | .Unknown => pure { s with status := .InstructionParseError, halted := true }
  pure { t with pc := (t.pc + i.size) % 65536 }

/-- `SynCpu::step`: decode the operation at `pc` (`peek_op`), drop the
breakpoint tag with `Operation::instr`, and execute the wrapped
instruction.  The breakpoint tag is never consulted here. -/
def SynCpu.step (s : SynCpu) : Option SynCpu :=
  match s.peek_op with
  | none => none
  | some op => s.stepInstr op.instr

/-- `SynCpu::run`, with explicit fuel for the unbounded Rust loop: stop
when halted, stop (before stepping) when the operation at `pc` is a
breakpoint, otherwise step and continue.  Exhausted fuel — covering the
signal-delivery exit of the Rust select as well — returns the current
state. -/
def SynCpu.run : Nat → SynCpu → Option SynCpu
  | 0, s => some s
  | n + 1, s =>
    if s.halted then some s
    else
      match s.peek_op with
      | none => none
      | some op =>
        if op.isBreakpoint then some s
        else
          match s.step with
          | none => none
          | some t => SynCpu.run n t

/-- An injection of `src/cpu/injection.rs`: a start address and a payload
of words. -/
structure Injection where
  addr : Nat
  payload : List Nat
deriving DecidableEq, Repr

/-- The loop body of `Injection::inject`: write the payload words to
consecutive raw RAM indices starting at `addr`.  The Rust indexes the RAM
vector directly (no modular wrap), so an index of 32768 or more panics. -/
def injectFrom (d : Data) (addr : Nat) : List Nat → Option Data
  | [] => some d
  | v :: rest =>
    if addr < 32768 then
      injectFrom { d with ram := updateFn d.ram addr v } (addr + 1) rest
    else
      none

/-- `Injection::inject`. -/
def Injection.inject (inj : Injection) (d : Data) : Option Data :=
  injectFrom d inj.addr inj.payload

/-- The debugger state of `src/debugger/debugger.rs`: the original binary
bytes, the original replay characters, the CPU, and the set of breakpoint
addresses (a `HashSet<usize>`, modelled as its membership function). -/
structure Debugger where
  original_binary : List Nat
  original_replay : List Nat
  cpu : SynCpu
  breakpoints : Nat → Bool

/-- `Debugger::new`: load the binary, apply each injection in order, build
a fresh CPU whose stdin buffer is the replay, and start with no
breakpoints.  The `unwrap` on the load and the panics inside `inject`
surface as `none`. -/
def Debugger.new (binary : List Nat) (replay : List Nat)
    (injections : List Injection) : Option Debugger := do
  let d0 ← Data.from_bin binary
  let d ← injections.foldlM (fun acc inj => inj.inject acc) d0
  pure { original_binary := binary, original_replay := replay,
         cpu := { SynCpu.new d with stdin_buf := replay },
         breakpoints := fun _ => false }

/-- The `Restart` arm of `Command::execute` in `src/debugger/command.rs`:
rebuild the data from the original binary alone, make a fresh CPU, restore
the replay buffer, and clear the breakpoint set.  No injections are
reapplied (the debugger keeps no injection list). -/
def Debugger.restart (dbg : Debugger) : Option Debugger := do
  let d ← Data.from_bin dbg.original_binary
  pure { dbg with
           cpu := { SynCpu.new d with stdin_buf := dbg.original_replay },
           breakpoints := fun _ => false }

/-- Modelled from the spec: `Operation::is_valid(addr, ram)`, called by the
breakpoint `set` command but not defined in the provided sources.  Per the
spec, setting is valid only if the low byte of `ram[addr]` decodes to a
known opcode, i.e. lies in 0..21. -/
def Operation.is_valid (addr : Nat) (ram : Nat → Nat) : Bool :=
  ram addr % 256 ≤ 21

/-- One address of the breakpoint `set` arm of `Command::execute`: when
the word at `addr` passes `Operation::is_valid`, OR `0xcc00` into it and
insert `addr` into the breakpoint set; otherwise print a message and leave
the state unchanged.  The raw `Vec` index panics for `addr ≥ 32768`. -/
def Debugger.bpSet (dbg : Debugger) (addr : Nat) : Option Debugger :=
  if addr < 32768 then
    if Operation.is_valid addr dbg.cpu.data.ram then
      some { dbg with
        cpu := { dbg.cpu with data := { dbg.cpu.data with
          ram := updateFn dbg.cpu.data.ram addr
            (dbg.cpu.data.ram addr ||| 0xcc00) } },
        breakpoints := fun a => if a = addr then true else dbg.breakpoints a }
    else
      some dbg
  else
    none

/-- One address of the breakpoint `unset` arm of `Command::execute`: when
`addr` is in the breakpoint set, remove it and AND the word at `addr` with
`0x00ff`; otherwise print a message and leave the state unchanged.  The
raw `Vec` index panics for `addr ≥ 32768`. -/
def Debugger.bpUnset (dbg : Debugger) (addr : Nat) : Option Debugger :=
  if dbg.breakpoints addr then
    if addr < 32768 then
      some { dbg with
        cpu := { dbg.cpu with data := { dbg.cpu.data with
          ram := updateFn dbg.cpu.data.ram addr
            (dbg.cpu.data.ram addr &&& 0x00ff) } },
        breakpoints := fun a => if a = addr then false else dbg.breakpoints a }
    else
      none
  else
    some dbg

/-- RAM image of a program given as a word list: the words from address 0,
zero elsewhere (the state `Data::from_bin` produces for the corresponding
little-endian byte stream). -/
def ramOf (ws : List Nat) : Nat → Nat :=
  fun a => ws.getD a 0

/-- A freshly constructed CPU (`SynCpu::new`) over the RAM image of the
given program, with zeroed registers and an empty stack. -/
def cpuOf (ws : List Nat) : SynCpu :=
  SynCpu.new { registers := fun _ => 0, ram := ramOf ws, stack := [] }

/-- Issue `breakpoint set` then `breakpoint unset` at each address of the
list in turn, as the debugger commands do. -/
def Debugger.bpRound (dbg : Debugger) (addrs : List Nat) : Option Debugger :=
  addrs.foldlM (fun d a => (d.bpSet a).bind (fun d2 => d2.bpUnset a)) dbg

/-! ## Theorems -/

/-- C1.  Evaluating the operation decoder on the failing input
`[14, 32768, 5]` (the encoding of `not r0 5`): the decoder reads the word
at offset 1 for both operands and produces `Not(r0, r0)` instead of the
mandated `Not(r0, 5)`, and the subsequent step therefore writes the 15-bit
inverse of r0 (32767, as r0 = 0) instead of the inverse of 5 (32762). -/
theorem not_decode_bug_eval :
    Operation.next (ramOf [14, 32768, 5]) 0 =
      some (.Regular (.Not (.Register 0) (.Register 0))) ∧
    (SynCpu.step (cpuOf [14, 32768, 5])).map (fun t => t.data.registers 0) =
      some 32767 ∧
    (32767 : Nat) ≠ 32767 ^^^ 5 := by
  refine ⟨rfl, rfl, by decide⟩

/-- C2 counterexample.  A CPU whose pc sits on a breakpoint-tagged
`set r0 7` (word `0xcc01`): invoking `run` returns immediately with the
state unchanged — the pc has not advanced and r0 was not written — so the
first iteration of `run` does not bypass the breakpoint check. -/
theorem run_at_breakpoint_reTrips :
    (SynCpu.run 5 (cpuOf [0xcc01, 32768, 7])).map
      (fun t => (t.pc, t.data.registers 0)) = some (0, 0) := by
  rfl

/-- C2 (amended).  No iteration of `run` bypasses the breakpoint check:
for every non-halted CPU state whose operation at pc is a breakpoint,
`run` returns at once with the state untouched, so a run issued while
stopped at a breakpoint re-trips immediately at the same pc.  (Progress
past a breakpoint is only possible through `step`, which never consults
the tag.) -/
theorem run_stops_at_breakpoint (n : Nat) (s : SynCpu) (i : Instruction)
    (hh : s.halted = false) (hb : s.peek_op = some (.Breakpoint i)) :
    SynCpu.run (n + 1) s = some s := by
  simp [SynCpu.run, hh, hb, Operation.isBreakpoint]

/-- C2 witness: the amended theorem applied to a concrete CPU stopped on a
breakpoint-tagged `noop` (word `0xcc15`). -/
theorem run_stops_at_breakpoint_witness :
    SynCpu.run 1 (cpuOf [0xcc15]) = some (cpuOf [0xcc15]) :=
  run_stops_at_breakpoint 0 (cpuOf [0xcc15]) .Noop rfl rfl

/-- C3.  For operand values a, b in [0, 32767], executing `Add` writes
`(a + b) mod 32768` into the destination register and executing `Mult`
writes `(a * b) mod 32768` — true modulo, as computed by the `% MOD_BASE`
reductions in `SynCpu::step`. -/
theorem step_add_mult_mod (s : SynCpu) (op : Operation) (r : Nat)
    (a b : SynInt) (va vb : Nat)
    (hop : s.peek_op = some op) (hr : r < 8)
    (ha : s.data.val a = some va) (hb : s.data.val b = some vb)
    (hva : va ≤ 32767) (hvb : vb ≤ 32767) :
    (op.instr = .Add (.Register r) a b →
      s.step = some { s with
        data := { s.data with
          registers := updateFn s.data.registers r ((va + vb) % 32768) },
        pc := (s.pc + 4) % 65536 }) ∧
    (op.instr = .Mult (.Register r) a b →
      s.step = some { s with
        data := { s.data with
          registers := updateFn s.data.registers r ((va * vb) % 32768) },
        pc := (s.pc + 4) % 65536 }) := by
  constructor <;> intro hi <;>
    simp [SynCpu.step, hop, hi, SynCpu.stepInstr, ha, hb, Data.writeReg, hr,
      Instruction.size]

/-- C3 witness: `Mult 32767 32767` on a fresh CPU writes 1 into r0, via
the amended-free general theorem applied to the program
`[10, 32768, 32767, 32767]`. -/
theorem step_add_mult_mod_witness :
    (SynCpu.step (cpuOf [10, 32768, 32767, 32767])).map
      (fun t => t.data.registers 0) = some 1 := by
  have h := (step_add_mult_mod (cpuOf [10, 32768, 32767, 32767])
    (.Regular (.Mult (.Register 0) (.Literal 32767) (.Literal 32767)))
    0 (.Literal 32767) (.Literal 32767) 32767 32767
    rfl (by decide) rfl rfl (by decide) (by decide)).2 rfl
  rw [h]
  rfl

/-- C6.  Executing `Pop` on a CPU whose stack is empty sets
status = PopOnEmptyStack and halted = true and leaves the data (hence all
eight registers) unchanged; the pc advances by the instruction size 2. -/
theorem step_pop_empty (s : SynCpu) (op : Operation) (dst : SynInt)
    (hop : s.peek_op = some op) (hi : op.instr = .Pop dst)
    (hstack : s.data.stack = []) :
    s.step = some { s with
      status := .PopOnEmptyStack, halted := true,
      pc := (s.pc + 2) % 65536 } := by
  simp [SynCpu.step, hop, hi, SynCpu.stepInstr, Data.is_stack_empty, hstack,
    Instruction.size]

/-- C6 witness: the first step of the program `[3, 32768, 0]` (pop r0,
halt) sets status = PopOnEmptyStack and halted = true and leaves r0 = 0. -/
theorem step_pop_empty_witness :
    (SynCpu.step (cpuOf [3, 32768, 0])).map
      (fun t => (t.status, t.halted, t.data.registers 0)) =
      some (.PopOnEmptyStack, true, 0) := by
  have h := step_pop_empty (cpuOf [3, 32768, 0])
    (.Regular (.Pop (.Register 0))) (.Register 0) rfl rfl rfl
  rw [h]
  rfl

/-- C4 counterexample.  The word `0x8010 = 32784` satisfies the claim's
hypotheses (it is at least `0x8008`, below `0x10000`, and its `0xCC00`
mask is `0x8000`), yet the operation decoder classifies by the low byte
`0x10 = 16` and returns a `WriteMem` instruction, not the unknown
operation. -/
theorem unknown_decode_low_byte_cex :
    Operation.next (fun _ => 0x8010) 0 =
      some (.Regular (.WriteMem (.Register 16) (.Register 16))) ∧
    (Operation.next (fun _ => 0x8010) 0).map Operation.instr ≠
      some Instruction.Unknown := by
  refine ⟨rfl, by decide⟩

/-- C4 (amended).  The operation decoder classifies by the low byte of the
opcode word alone: whenever that byte is 22 or more, the decoded
instruction is the unknown instruction (wrapped regular or breakpoint
according to the high byte), and a subsequent step sets
status = InstructionParseError and halts (advancing pc by 1). -/
theorem unknown_opcode_parse_error (ram : Nat → Nat) (p : Nat) (s : SynCpu)
    (hp : p < 32768) (hop : 22 ≤ ram p % 256)
    (hs : s.data.ram = ram) (hpc : s.pc = p) :
    (Operation.next ram p).map Operation.instr = some Instruction.Unknown ∧
    s.step = some { s with
      status := .InstructionParseError, halted := true,
      pc := (s.pc + 1) % 65536 } := by
  have h0 : ram p % 256 ≠ 0 := by omega
  have h1 : ram p % 256 ≠ 1 := by omega
  have h2 : ram p % 256 ≠ 2 := by omega
  have h3 : ram p % 256 ≠ 3 := by omega
  have h4 : ram p % 256 ≠ 4 := by omega
  have h5 : ram p % 256 ≠ 5 := by omega
  have h6 : ram p % 256 ≠ 6 := by omega
  have h7 : ram p % 256 ≠ 7 := by omega
  have h8 : ram p % 256 ≠ 8 := by omega
  have h9 : ram p % 256 ≠ 9 := by omega
  have h10 : ram p % 256 ≠ 10 := by omega
  have h11 : ram p % 256 ≠ 11 := by omega
  have h12 : ram p % 256 ≠ 12 := by omega
  have h13 : ram p % 256 ≠ 13 := by omega
  have h14 : ram p % 256 ≠ 14 := by omega
  have h15 : ram p % 256 ≠ 15 := by omega
  have h16 : ram p % 256 ≠ 16 := by omega
  have h17 : ram p % 256 ≠ 17 := by omega
  have h18 : ram p % 256 ≠ 18 := by omega
  have h19 : ram p % 256 ≠ 19 := by omega
  have h20 : ram p % 256 ≠ 20 := by omega
  have h21 : ram p % 256 ≠ 21 := by omega
  have hdec : Operation.next ram p =
      if (ram p >>> 8) &&& 0xcc = 0xcc then
        some (Operation.Breakpoint .Unknown)
      else
        some (Operation.Regular .Unknown) := by
    simp [Operation.next, decodeArm, sliceRead, hp, h0, h1, h2, h3, h4, h5,
      h6, h7, h8, h9, h10, h11, h12, h13, h14, h15, h16, h17, h18, h19, h20,
      h21]
  constructor
  · rw [hdec]
    split <;> rfl
  · have hpk : s.peek_op = Operation.next ram p := by
      simp [SynCpu.peek_op, SynCpu.peek_op_at, hs, hpc]
    by_cases hcc : (ram p >>> 8) &&& 0xcc = 0xcc
    · have hsome : s.peek_op = some (.Breakpoint .Unknown) := by
        rw [hpk, hdec, if_pos hcc]
      simp [SynCpu.step, hsome, SynCpu.stepInstr, Operation.instr,
        Instruction.size]
    · have hsome : s.peek_op = some (.Regular .Unknown) := by
        rw [hpk, hdec, if_neg hcc]
      simp [SynCpu.step, hsome, SynCpu.stepInstr, Operation.instr,
        Instruction.size]

/-- C4 witness: the amended theorem applied to a RAM image whose word at
address 0 is 22, the smallest unrecognised low byte. -/
theorem unknown_opcode_parse_error_witness :
    (Operation.next (ramOf [22]) 0).map Operation.instr =
      some Instruction.Unknown ∧
    (SynCpu.step (cpuOf [22])).map (fun t => (t.status, t.halted, t.pc)) =
      some (.InstructionParseError, true, 1) := by
  have h := unknown_opcode_parse_error (ramOf [22]) 0 (cpuOf [22])
    (by decide) (by decide) rfl rfl
  exact ⟨h.1, by rw [h.2]; rfl⟩

/-- C5 counterexample.  Executing the program `[11, 32768, 1, 0]`
(`mod r0 1 0`, a `Mod` whose divisor value is 0) makes `step` panic — the
Rust `%` aborts on a zero divisor — instead of setting the CPU status to
InstructionParseError and halting. -/
theorem step_mod_zero_panics :
    SynCpu.step (cpuOf [11, 32768, 1, 0]) = none := by
  rfl

/-- C5 (amended).  Executing a step can abort: a `Mod` whose divisor
evaluates to 0 panics (the bare Rust `%`), and an instruction that writes
through a literal destination operand — `Set` shown here — panics in the
`IndexMut<SynInt>` impl; neither path sets a status or halts. -/
theorem step_panics_on_mod_zero_and_literal_dst (s : SynCpu)
    (op : Operation) (hop : s.peek_op = some op) :
    (∀ dst a b va, op.instr = .Mod dst a b →
      s.data.val a = some va → s.data.val b = some 0 →
      s.step = none) ∧
    (∀ l a va, op.instr = .Set (.Literal l) a →
      s.data.val a = some va →
      s.step = none) := by
  constructor
  · intro dst a b va hi ha hb
    simp [SynCpu.step, hop, hi, SynCpu.stepInstr, ha, hb]
  · intro l a va hi ha
    simp [SynCpu.step, hop, hi, SynCpu.stepInstr, ha, Data.writeReg]

/-- C5 witness: the amended theorem applied to the programs
`[11, 32768, 5, 0]` (mod with literal divisor 0) and `[1, 5, 7]` (set with
the literal destination 5). -/
theorem step_panics_witness :
    SynCpu.step (cpuOf [11, 32768, 5, 0]) = none ∧
    SynCpu.step (cpuOf [1, 5, 7]) = none := by
  constructor
  · exact (step_panics_on_mod_zero_and_literal_dst (cpuOf [11, 32768, 5, 0])
      (.Regular (.Mod (.Register 0) (.Literal 5) (.Literal 0))) rfl).1
      (.Register 0) (.Literal 5) (.Literal 0) 5 rfl rfl rfl
  · exact (step_panics_on_mod_zero_and_literal_dst (cpuOf [1, 5, 7])
      (.Regular (.Set (.Literal 5) (.Literal 7))) rfl).2
      5 (.Literal 7) 7 rfl rfl

/-- C7 counterexample.  A debugger loaded from the two-byte binary
`[0, 0]` (one word 0) with the injection `(0, [5])` starts with
`ram[0] = 5`, but after `restart` the RAM holds the raw binary word 0:
restart does not reapply the injection, so the restored state differs from
the initial one. -/
theorem restart_drops_injections :
    ((Debugger.new [0, 0] [] [⟨0, [5]⟩]).bind Debugger.restart).map
      (fun d => d.cpu.data.ram 0) = some 0 ∧
    (Debugger.new [0, 0] [] [⟨0, [5]⟩]).map
      (fun d => d.cpu.data.ram 0) = some 5 := by
  refine ⟨rfl, rfl⟩

/-- C7 (amended).  `restart` coincides exactly with a fresh
`Debugger::new` on the original binary and replay buffer with an EMPTY
injection list: RAM is rebuilt from the binary alone (injections are not
reapplied, the debugger stores none), the replay buffer is restored,
breakpoints are cleared, and pc, status, stack and registers are reset.
Command traces after restart therefore agree with a fresh load only when
no injections were given. -/
theorem restart_is_fresh_load_without_injections (dbg : Debugger) :
    dbg.restart = Debugger.new dbg.original_binary dbg.original_replay [] := by
  cases h : Data.from_bin dbg.original_binary <;>
    simp [Debugger.restart, Debugger.new, h]

/-- C9 counterexample.  With the word 9 (opcode `Add`) at address 32766,
decoding the operation at pc = 32766 needs the operand word at offset 3,
i.e. absolute address 32769; the slice `&data[32766..]` has only two
elements and the access panics (`none`) instead of wrapping to address 1. -/
theorem decode_no_wrap_at_top :
    Operation.next (fun a => if a = 32766 then 9 else 0) 32766 = none := by
  rfl

/-- C9 (amended).  Operand words are read at the absolute addresses
pc + k with no modular wrap; decoding is total for every pc up to 32764
(all possible operand reads stay inside RAM), while a pc within three
words of the top of RAM can make the decoder read out of bounds and
panic, as the counterexample shows. -/
theorem decode_total_below_top (ram : Nat → Nat) (p : Nat)
    (hp : p ≤ 32764) :
    (Operation.next ram p).isSome = true := by
  have harm : ∀ op, (decodeArm ram p op).isSome = true := by
    intro op
    have r1 : sliceRead ram p 1 = some (ram (p + 1)) := by
      simp [sliceRead]; omega
    have r2 : sliceRead ram p 2 = some (ram (p + 2)) := by
      simp [sliceRead]; omega
    have r3 : sliceRead ram p 3 = some (ram (p + 3)) := by
      simp [sliceRead]; omega
    rcases Nat.lt_or_ge op 22 with h | h
    · interval_cases op <;> simp [decodeArm, r1, r2, r3]
    · have h0 : op ≠ 0 := by omega
      have h1 : op ≠ 1 := by omega
      have h2 : op ≠ 2 := by omega
      have h3 : op ≠ 3 := by omega
      have h4 : op ≠ 4 := by omega
      have h5 : op ≠ 5 := by omega
      have h6 : op ≠ 6 := by omega
      have h7 : op ≠ 7 := by omega
      have h8 : op ≠ 8 := by omega
      have h9 : op ≠ 9 := by omega
      have h10 : op ≠ 10 := by omega
      have h11 : op ≠ 11 := by omega
      have h12 : op ≠ 12 := by omega
      have h13 : op ≠ 13 := by omega
      have h14 : op ≠ 14 := by omega
      have h15 : op ≠ 15 := by omega
      have h16 : op ≠ 16 := by omega
      have h17 : op ≠ 17 := by omega
      have h18 : op ≠ 18 := by omega
      have h19 : op ≠ 19 := by omega
      have h20 : op ≠ 20 := by omega
      have h21 : op ≠ 21 := by omega
      simp [decodeArm, h0, h1, h2, h3, h4, h5, h6, h7, h8, h9, h10, h11,
        h12, h13, h14, h15, h16, h17, h18, h19, h20, h21]
  obtain ⟨i, hi⟩ := Option.isSome_iff_exists.mp (harm (ram (p + 0) % 256))
  have r0 : sliceRead ram p 0 = some (ram (p + 0)) := by
    simp [sliceRead]; omega
  simp only [Operation.next, r0, Option.bind_eq_bind, Option.some_bind, hi]
  split_ifs <;> rfl

/-- C9 witness: the amended theorem applied to the all-`Add` RAM image at
pc = 32764, the largest pc it covers. -/
theorem decode_total_below_top_witness :
    (Operation.next (fun _ => 9) 32764).isSome = true :=
  decode_total_below_top (fun _ => 9) 32764 (by decide)

/-- Masking with `0x00ff` after tagging with `0xcc00` recovers a word
whose upper byte was zero. -/
theorem or_cc00_and_ff (w : Nat) (h : w < 256) : (w ||| 0xcc00) &&& 0xff = w := by
  apply Nat.eq_of_testBit_eq
  intro i
  simp only [Nat.testBit_land, Nat.testBit_lor]
  rcases Nat.lt_or_ge i 8 with hi | hi
  · interval_cases i <;> simp [Nat.testBit_succ]
  · have hpow : (256 : Nat) ≤ 2 ^ i := by
      calc (256 : Nat) = 2 ^ 8 := by norm_num
        _ ≤ 2 ^ i := Nat.pow_le_pow_right (by omega) hi
    have hw : w.testBit i = false := Nat.testBit_lt_two_pow (by omega)
    have hf : (0xff : Nat).testBit i = false := Nat.testBit_lt_two_pow (by omega)
    simp [hw, hf]

/-- Setting and then unsetting a breakpoint at one address restores the
debugger exactly, provided the word there has a zero upper byte and the
address is not already a breakpoint. -/
theorem bp_set_unset_single (dbg : Debugger) (addr : Nat)
    (h256 : dbg.cpu.data.ram addr < 256) (haddr : addr < 32768)
    (hbp : dbg.breakpoints addr = false) :
    (dbg.bpSet addr).bind (fun d => d.bpUnset addr) = some dbg := by
  by_cases hv : Operation.is_valid addr dbg.cpu.data.ram
  · simp only [Debugger.bpSet, if_pos haddr, if_pos hv, Option.some_bind,
      Debugger.bpUnset]
    simp only [updateFn, if_pos rfl, if_pos haddr, ite_true]
    have hram : updateFn
        (updateFn dbg.cpu.data.ram addr (dbg.cpu.data.ram addr ||| 0xcc00))
        addr ((dbg.cpu.data.ram addr ||| 0xcc00) &&& 0x00ff) =
        dbg.cpu.data.ram := by
      funext j
      by_cases hj : j = addr
      · subst hj
        simp [updateFn, or_cc00_and_ff _ h256]
      · simp [updateFn, hj]
    have hbps : (fun a => if a = addr then false else
        if a = addr then true else dbg.breakpoints a) = dbg.breakpoints := by
      funext a
      by_cases ha : a = addr
      · subst ha
        simp [hbp]
      · simp [ha]
    rw [hram, hbps]
  · simp only [Debugger.bpSet, if_pos haddr, if_neg hv, Option.some_bind,
      Debugger.bpUnset, hbp, Bool.false_eq_true, if_false]

/-- C8 counterexample.  The one-word program `0x0115` (`noop` with the
junk upper byte `0x01`, which is different from `0xCC`): setting then
unsetting a breakpoint at its instruction address 0 leaves `0x0015` in
RAM — the unset mask `&= 0x00ff` erased the upper byte — so the RAM image
is not restored. -/
theorem bp_round_trip_cex :
    (((Debugger.new [0x15, 0x01] [] []).bind (fun d => d.bpSet 0)).bind
        (fun d => d.bpUnset 0)).map (fun d => d.cpu.data.ram 0) =
      some 0x15 ∧
    (Debugger.new [0x15, 0x01] [] []).map (fun d => d.cpu.data.ram 0) =
      some 0x115 ∧
    (0x15 : Nat) ≠ 0x115 := by
  refine ⟨rfl, rfl, by decide⟩

/-- C8 (amended).  For a loaded program all of whose words at the touched
instruction addresses have a ZERO upper byte (not merely one different
from `0xCC`), and none of which is already a breakpoint, performing
breakpoint set followed by breakpoint unset at every such address yields
a debugger state — in particular a RAM image — identical to the original. -/
theorem bp_round_trip (dbg : Debugger) (addrs : List Nat)
    (h : ∀ a ∈ addrs, dbg.cpu.data.ram a < 256 ∧ a < 32768 ∧
      dbg.breakpoints a = false) :
    dbg.bpRound addrs = some dbg := by
  induction addrs with
  | nil => rfl
  | cons a rest ih =>
    have ha := h a (List.mem_cons_self a rest)
    have hstep := bp_set_unset_single dbg a ha.1 ha.2.1 ha.2.2
    simp only [Debugger.bpRound, List.foldlM_cons] at hstep ⊢
    rw [hstep]
    exact ih (fun b hb => h b (List.mem_cons_of_mem a hb))

/-- C8 witness: the amended theorem applied to the two-word program
`[21, 9]` (upper bytes zero) with the round trip performed at addresses
0 and 1. -/
theorem bp_round_trip_witness :
    Debugger.bpRound
      { original_binary := [0x15, 0x00, 0x09, 0x00], original_replay := [],
        cpu := cpuOf [21, 9], breakpoints := fun _ => false } [0, 1] =
      some
      { original_binary := [0x15, 0x00, 0x09, 0x00], original_replay := [],
        cpu := cpuOf [21, 9], breakpoints := fun _ => false } := by
  apply bp_round_trip
  intro a ha
  fin_cases ha <;> exact ⟨by decide, by decide, rfl⟩

/-- Executing an instruction never reads the `halted` flag: stepping the
instruction arms on a state with `halted = true` performs exactly the same
mutations as on the same state with `halted = false`, except that `halted`
stays true (arms only ever set it to true). -/
theorem stepInstr_set_halted (s : SynCpu) (i : Instruction) :
    SynCpu.stepInstr { s with halted := true } i =
      (SynCpu.stepInstr { s with halted := false } i).map
        (fun t => { t with halted := true }) := by
  cases i with
  | Halt => rfl
  | Set dst a =>
    simp only [SynCpu.stepInstr]
    cases s.data.val a with
    | none => rfl
    | some va =>
      simp only [Option.pure_def, Option.bind_eq_bind, Option.some_bind]
      cases s.data.writeReg dst va <;> rfl
  | Push src =>
    simp only [SynCpu.stepInstr]
    cases s.data.val src <;> rfl
  | Pop dst =>
    simp only [SynCpu.stepInstr]
    cases hst : s.data.stack with
    | nil => simp [Data.is_stack_empty, hst]
    | cons v rest =>
      simp only [Data.is_stack_empty, hst, List.isEmpty_cons,
        Bool.false_eq_true, if_false]
      cases ({ s.data with stack := rest }).writeReg dst v <;> rfl
  | Eq dst a b =>
    simp only [SynCpu.stepInstr]
    cases s.data.val a with
    | none => rfl
    | some va =>
      simp only [Option.pure_def, Option.bind_eq_bind, Option.some_bind]
      cases s.data.val b with
      | none => rfl
      | some vb =>
        simp only [Option.pure_def, Option.bind_eq_bind, Option.some_bind]
        cases s.data.writeReg dst (if va = vb then 1 else 0) <;> rfl
  | Gt dst a b =>
    simp only [SynCpu.stepInstr]
    cases s.data.val a with
    | none => rfl
    | some va =>
      simp only [Option.pure_def, Option.bind_eq_bind, Option.some_bind]
      cases s.data.val b with
      | none => rfl
      | some vb =>
        simp only [Option.pure_def, Option.bind_eq_bind, Option.some_bind]
        cases s.data.writeReg dst (if va > vb then 1 else 0) <;> rfl
  | Jmp dst =>
    simp only [SynCpu.stepInstr]
    cases s.data.val dst <;> rfl
  | Jt src dst =>
    simp only [SynCpu.stepInstr]
    cases s.data.val src with
    | none => rfl
    | some vs =>
      simp only [Option.pure_def, Option.bind_eq_bind, Option.some_bind]
      by_cases hv : vs = 0
      · simp [hv]
      · simp only [ne_eq, hv, not_false_eq_true, if_true, ite_not, if_neg hv]
        cases s.data.val dst <;> simp
  | Jf src dst =>
    simp only [SynCpu.stepInstr]
    cases s.data.val src with
    | none => rfl
    | some vs =>
      simp only [Option.pure_def, Option.bind_eq_bind, Option.some_bind]
      by_cases hv : vs = 0
      · simp only [hv, if_pos rfl, ite_true]
        cases s.data.val dst <;> simp
      · simp [hv]
  | Add dst a b =>
    simp only [SynCpu.stepInstr]
    cases s.data.val a with
    | none => rfl
    | some va =>
      simp only [Option.pure_def, Option.bind_eq_bind, Option.some_bind]
      cases s.data.val b with
      | none => rfl
      | some vb =>
        simp only [Option.pure_def, Option.bind_eq_bind, Option.some_bind]
        cases s.data.writeReg dst ((va + vb) % 32768) <;> rfl
  | Mult dst a b =>
    simp only [SynCpu.stepInstr]
    cases s.data.val a with
    | none => rfl
    | some va =>
      simp only [Option.pure_def, Option.bind_eq_bind, Option.some_bind]
      cases s.data.val b with
      | none => rfl
      | some vb =>
        simp only [Option.pure_def, Option.bind_eq_bind, Option.some_bind]
        cases s.data.writeReg dst ((va * vb) % 32768) <;> rfl
  | Mod dst a b =>
    simp only [SynCpu.stepInstr]
    cases s.data.val a with
    | none => rfl
    | some va =>
      simp only [Option.pure_def, Option.bind_eq_bind, Option.some_bind]
      cases s.data.val b with
      | none => rfl
      | some vb =>
        simp only [Option.pure_def, Option.bind_eq_bind, Option.some_bind]
        by_cases hv : vb = 0
        · simp [hv]
        · simp only [hv, if_false]
          cases s.data.writeReg dst (va % vb) <;> simp [hv]
  | And dst a b =>
    simp only [SynCpu.stepInstr]
    cases s.data.val a with
    | none => rfl
    | some va =>
      simp only [Option.pure_def, Option.bind_eq_bind, Option.some_bind]
      cases s.data.val b with
      | none => rfl
      | some vb =>
        simp only [Option.pure_def, Option.bind_eq_bind, Option.some_bind]
        cases s.data.writeReg dst (va &&& vb) <;> rfl
  | Or dst a b =>
    simp only [SynCpu.stepInstr]
    cases s.data.val a with
    | none => rfl
    | some va =>
      simp only [Option.pure_def, Option.bind_eq_bind, Option.some_bind]
      cases s.data.val b with
      | none => rfl
      | some vb =>
        simp only [Option.pure_def, Option.bind_eq_bind, Option.some_bind]
        cases s.data.writeReg dst (va ||| vb) <;> rfl
  | Not dst a =>
    simp only [SynCpu.stepInstr]
    cases s.data.val a with
    | none => rfl
    | some va =>
      simp only [Option.pure_def, Option.bind_eq_bind, Option.some_bind]
      cases s.data.writeReg dst (32767 ^^^ va) <;> rfl
  | ReadMem dst src =>
    simp only [SynCpu.stepInstr]
    cases s.data.val src with
    | none => rfl
    | some addr =>
      simp only [Option.pure_def, Option.bind_eq_bind, Option.some_bind]
      cases s.data.writeReg dst (s.data.readRam addr) <;> rfl
  | WriteMem dst src =>
    simp only [SynCpu.stepInstr]
    cases s.data.val dst with
    | none => rfl
    | some addr =>
      simp only [Option.pure_def, Option.bind_eq_bind, Option.some_bind]
      cases s.data.val src <;> rfl
  | Call dst =>
    simp only [SynCpu.stepInstr]
    cases (s.data.push ((s.pc + 2) % 65536)).val dst <;> rfl
  | Ret =>
    simp only [SynCpu.stepInstr]
    cases hst : s.data.stack with
    | nil => simp [Data.is_stack_empty, hst]
    | cons v rest => simp [Data.is_stack_empty, hst]
  | Out val =>
    simp only [SynCpu.stepInstr]
    cases s.data.val val with
    | none => rfl
    | some v =>
      simp only [Option.pure_def, Option.bind_eq_bind, Option.some_bind]
      by_cases hv : 0xd800 <= v /\ v < 0xe000
      · simp [hv]
      · simp [hv]
  | In dst =>
    simp only [SynCpu.stepInstr]
    cases s.stdin_buf.getLast? with
    | none => rfl
    | some c =>
      simp only [Option.pure_def, Option.bind_eq_bind, Option.some_bind]
      cases s.data.writeReg dst c <;> rfl
  | Noop => rfl
  | Unknown => rfl

/-- C10.  `SynCpu::step` never inspects the halted flag: on a halted CPU
it still decodes and executes the instruction at pc, performing the same
mutations of pc, registers, RAM, stack and buffers as on the unhalted CPU
(with `halted` remaining true); only the `run` loop checks `halted`, and
returns immediately on a halted CPU without stepping. -/
theorem step_ignores_halted (s : SynCpu) (n : Nat) (h : s.halted = true) :
    SynCpu.run (n + 1) s = some s ∧
    SynCpu.step s = (SynCpu.step { s with halted := false }).map
      (fun t => { t with halted := true }) := by
  constructor
  · simp [SynCpu.run, h]
  · cases s with
    | mk pc hl st dt buf out =>
      simp only at h
      subst h
      simp only [SynCpu.step, SynCpu.peek_op, SynCpu.peek_op_at]
      cases hop : Operation.next dt.ram pc with
      | none => rfl
      | some op =>
        exact stepInstr_set_halted ⟨pc, true, st, dt, buf, out⟩ op.instr

/-- C10 witness: the claim theorem applied to a halted CPU sitting on a
`noop`. -/
theorem step_ignores_halted_witness :
    SynCpu.run 1 { cpuOf [21] with halted := true } =
      some { cpuOf [21] with halted := true } ∧
    SynCpu.step { cpuOf [21] with halted := true } =
      (SynCpu.step { { cpuOf [21] with halted := true } with halted := false }).map
        (fun t => { t with halted := true }) :=
  step_ignores_halted { cpuOf [21] with halted := true } 0 rfl

end Synacor
